import Mathlib

/-!
Verification development for the nectar-db coupon-scraping pipeline.

The repository (JavaScript) scrapes coupon offers from listing pages,
resolves hidden codes through secondary modal pages, deduplicates by
(domain, code) and persists the rows with a freshness window.  This file
gives a shallow embedding of the pure data flow of those functions and
proves the spec-level properties about them.

Conventions of the embedding:
* machine integers are Nat / Int (no overflow is relevant here);
* the external world (browser navigation, DOM extraction, the database
  client) is passed in as explicit data: an oracle function gives each
  modal-page visit its outcome, the database is a plain list of rows;
* JS string truthiness is modeled explicitly (undefined and the empty
  string are falsy);
* asynchronous per-item processing inside one batch is modeled as a fold:
  every item touches only its own index of the shared array, so the
  interleaving order cannot change the result.
-/

namespace NectarDb

/-- The sentinel code meaning `code not yet resolved / not found`
(string literal AUTOMATIC in scrape.js). -/
def sentinel : String := "AUTOMATIC"

/-- JS truthiness of a possibly-absent string attribute: `undefined` and
the empty string are falsy, every other string is truthy.  Models the
test `item.url && ...` in scrape.js. -/
def jsTruthy : Option String → Bool
  | none => false
  | some s => s ≠ ""

/-! ## Data model: offers and persisted rows -/

/-- One offer as passed to saveToDatabase (scrape.js line 649): the
cleaned coupon fields that take part in deduplication and persistence. -/
structure OfferIn where
  code : String
  discount : String
  terms : String
  verified : Bool
deriving DecidableEq

/-- One persisted row of the coupons table, unique on (domain, code)
(the columns written by saveToDatabase in scrape.js lines 656-662). -/
structure Row where
  domain : String
  code : String
  discount : String
  terms : String
  verified : Bool
deriving DecidableEq

/-- The row built for an offer in saveToDatabase (scrape.js lines 656-662). -/
def mkRow (domain : String) (c : OfferIn) : Row :=
  { domain := domain, code := c.code, discount := c.discount,
    terms := c.terms, verified := c.verified }

/-- The dedup key `domain:code` built in saveToDatabase (scrape.js line 654). -/
def buildKey (domain code : String) : String := domain ++ ":" ++ code

/-- One step of filling the uniqueMap of saveToDatabase (scrape.js lines
653-664): the JS Map keeps insertion order and `set` is guarded by
`has`, so only the first offer per key is kept.  The Map entries always
carry key `buildKey domain row.code`, hence `has key` is the test below. -/
def uniqueAdd (domain : String) (acc : List Row) (c : OfferIn) : List Row :=
  if acc.any (fun r => buildKey domain r.code == buildKey domain c.code) then acc
  else acc ++ [mkRow domain c]

/-- The deduplicated rows `Array.from(uniqueMap.values())` of
saveToDatabase (scrape.js line 666), in first-seen order. -/
def uniqueCoupons (domain : String) (coupons : List OfferIn) : List Row :=
  coupons.foldl (uniqueAdd domain) []

/-- The effect on the stored table of upserting one row with
`onConflict: [domain, code], ignoreDuplicates: true` (scrape.js lines
679-684): a row whose (domain, code) is already present is skipped,
otherwise it is inserted. -/
def upsertRow (db : List Row) (r : Row) : List Row :=
  if db.any (fun q => q.domain == r.domain && q.code == r.code) then db
  else db ++ [r]

/-- saveToDatabase (scrape.js lines 649-696): dedup by `domain:code`
key keeping the first offer per key, return unchanged when nothing is
left to save, otherwise upsert the unique rows (skip-on-conflict). -/
def saveToDatabase (domain : String) (coupons : List OfferIn) (db : List Row) : List Row :=
  let uc := uniqueCoupons domain coupons
  if uc.length = 0 then db
  else uc.foldl upsertRow db

/-! ## Key-string injectivity

The dedup key is the string `domain ++ ":" ++ code`; within one save
call the domain is fixed, so equal keys mean equal codes. -/

theorem buildKey_inj (domain a b : String) :
    buildKey domain a = buildKey domain b ↔ a = b := by
  constructor
  · intro h
    have hd : (buildKey domain a).data = (buildKey domain b).data := by rw [h]
    simp only [buildKey, String.data_append] at hd
    have h1 := List.append_cancel_left hd
    exact String.ext h1
  · intro h; rw [h]

theorem buildKey_beq (domain a b : String) :
    (buildKey domain a == buildKey domain b) = (a == b) := by
  by_cases h : a = b
  · simp [h]
  · have hne : ¬ buildKey domain a = buildKey domain b :=
      fun hc => h ((buildKey_inj domain a b).mp hc)
    simp [h, hne]

/-! ## Dedup characterization (towards C2) -/

/-- Every row produced by the uniqueMap fold carries the save call's
domain. -/
theorem uniqueFold_domain (domain : String) :
    ∀ (offers : List OfferIn) (acc : List Row),
      (∀ r ∈ acc, r.domain = domain) →
      ∀ r ∈ offers.foldl (uniqueAdd domain) acc, r.domain = domain := by
  intro offers
  induction offers with
  | nil => intro acc hacc r hr; exact hacc r hr
  | cons o rest ih =>
    intro acc hacc r hr
    simp only [List.foldl_cons] at hr
    refine ih (uniqueAdd domain acc o) ?_ r hr
    intro q hq
    unfold uniqueAdd at hq
    by_cases hc : acc.any (fun r => buildKey domain r.code == buildKey domain o.code) = true
    · rw [if_pos hc] at hq; exact hacc q hq
    · rw [if_neg (by simpa using hc)] at hq
      rcases List.mem_append.mp hq with h1 | h2
      · exact hacc q h1
      · simp only [List.mem_singleton] at h2
        rw [h2]; rfl

/-- The key test of uniqueAdd agrees with a plain code-equality test. -/
theorem uniqueAdd_key_test (domain : String) (acc : List Row) (c : OfferIn) :
    acc.any (fun r => buildKey domain r.code == buildKey domain c.code)
      = acc.any (fun r => r.code == c.code) := by
  induction acc with
  | nil => rfl
  | cons r rest ih => simp [List.any_cons, buildKey_beq, ih]

/-- The rows of the uniqueMap fold that carry a given code: if the
accumulator already holds such a row, nothing is added for that code;
otherwise exactly the first offer with that code contributes one row. -/
theorem uniqueFold_filter (domain c : String) :
    ∀ (offers : List OfferIn) (acc : List Row),
      (offers.foldl (uniqueAdd domain) acc).filter (fun r => r.code == c)
      = acc.filter (fun r => r.code == c)
        ++ (if acc.any (fun r => r.code == c) then []
            else match offers.find? (fun o => o.code == c) with
                 | some o => [mkRow domain o]
                 | none => []) := by
  intro offers
  induction offers with
  | nil =>
    intro acc
    cases hacc : acc.any (fun r => r.code == c) <;> simp [hacc]
  | cons o rest ih =>
    intro acc
    simp only [List.foldl_cons]
    rw [show uniqueAdd domain acc o
        = (if acc.any (fun r => r.code == o.code) then acc else acc ++ [mkRow domain o]) from by
      unfold uniqueAdd; rw [uniqueAdd_key_test]]
    by_cases hoc : o.code = c
    · -- the head offer carries code c
      subst hoc
      have hfind : List.find? (fun x => x.code == o.code) (o :: rest) = some o := by
        rw [List.find?_cons_of_pos]; simp
      rw [hfind]
      cases hacc : acc.any (fun r => r.code == o.code)
      · -- code not yet in the map: the head offer is appended and wins
        rw [if_neg (by simp [hacc])]
        rw [ih (acc ++ [mkRow domain o])]
        have hmkc : ((mkRow domain o).code == o.code) = true := by
          simp [mkRow]
        have hacc2 : (acc ++ [mkRow domain o]).any (fun r => r.code == o.code) = true := by
          refine List.any_eq_true.mpr ⟨mkRow domain o, by simp, hmkc⟩
        rw [hacc2]
        simp only [if_true, List.append_nil, List.filter_append]
        simp [hmkc]
      · -- code already in the map: uniqueAdd is the identity here
        rw [if_pos (by simp [hacc])]
        rw [ih acc, hacc]
        simp
    · -- the head offer carries a different code
      have hfind : List.find? (fun x => x.code == c) (o :: rest)
          = List.find? (fun x => x.code == c) rest := by
        rw [List.find?_cons_of_neg]; simp [hoc]
      rw [hfind]
      cases hkey : acc.any (fun r => r.code == o.code)
      · rw [if_neg (by simp [hkey])]
        rw [ih (acc ++ [mkRow domain o])]
        have hmk : ((mkRow domain o).code == c) = false := by
          simp [mkRow, hoc]
        rw [List.filter_append, List.any_append]
        simp [hmk]
      · rw [if_pos (by simp [hkey])]
        exact ih acc

/-! ## Upsert characterization (towards C2, C5) -/

/-- Presence of a (domain, code) key in the stored table; the conflict
test of the skip-on-conflict upsert. -/
def hasDC (db : List Row) (d c : String) : Bool :=
  db.any (fun q => q.domain == d && q.code == c)

theorem upsertRow_eq (db : List Row) (r : Row) :
    upsertRow db r = if hasDC db r.domain r.code then db else db ++ [r] := rfl

theorem hasDC_upsertRow_self (db : List Row) (r : Row) :
    hasDC (upsertRow db r) r.domain r.code = true := by
  rw [upsertRow_eq]
  cases h : hasDC db r.domain r.code
  · rw [if_neg Bool.false_ne_true]
    unfold hasDC
    exact List.any_eq_true.mpr ⟨r, by simp, by simp⟩
  · rw [if_pos rfl]; exact h

theorem hasDC_upsertRow_mono (db : List Row) (r : Row) (d c : String)
    (h : hasDC db d c = true) : hasDC (upsertRow db r) d c = true := by
  rw [upsertRow_eq]
  cases hk : hasDC db r.domain r.code
  · rw [if_neg Bool.false_ne_true]
    unfold hasDC at h ⊢
    rcases List.any_eq_true.mp h with ⟨q, hq, hqp⟩
    exact List.any_eq_true.mpr ⟨q, List.mem_append.mpr (Or.inl hq), hqp⟩
  · rw [if_pos rfl]; exact h

theorem hasDC_foldl_mono (l : List Row) :
    ∀ (db : List Row) (d c : String), hasDC db d c = true →
      hasDC (l.foldl upsertRow db) d c = true := by
  induction l with
  | nil => intro db d c h; simpa using h
  | cons r rest ih =>
    intro db d c h
    simp only [List.foldl_cons]
    exact ih (upsertRow db r) d c (hasDC_upsertRow_mono db r d c h)

/-- After upserting a batch, every row of the batch has its key present
in the table. -/
theorem hasDC_foldl_mem (l : List Row) :
    ∀ (db : List Row) (r : Row), r ∈ l →
      hasDC (l.foldl upsertRow db) r.domain r.code = true := by
  induction l with
  | nil => intro db r hr; cases hr
  | cons v rest ih =>
    intro db r hr
    simp only [List.foldl_cons]
    rcases List.mem_cons.mp hr with h1 | h2
    · rw [h1]
      exact hasDC_foldl_mono rest (upsertRow db v) v.domain v.code
        (hasDC_upsertRow_self db v)
    · exact ih (upsertRow db v) r h2

/-- Upserting rows whose keys are all already present is a no-op. -/
theorem foldl_upsert_all_present (l : List Row) :
    ∀ (db : List Row), (∀ r ∈ l, hasDC db r.domain r.code = true) →
      l.foldl upsertRow db = db := by
  induction l with
  | nil => intro db _; rfl
  | cons v rest ih =>
    intro db h
    simp only [List.foldl_cons]
    have hv : upsertRow db v = db := by
      rw [upsertRow_eq, if_pos (h v (List.mem_cons_self v rest))]
    rw [hv]
    exact ih db (fun r hr => h r (List.mem_cons_of_mem v hr))

/-- Upserting rows none of which matches a predicate does not change the
predicate's filtered view of the table. -/
theorem foldl_upsert_filter_none (P : Row → Bool) (l : List Row) :
    ∀ (db : List Row), l.filter P = [] →
      (l.foldl upsertRow db).filter P = db.filter P := by
  induction l with
  | nil => intro db _; rfl
  | cons v rest ih =>
    intro db h
    have hv : P v = false := by
      by_contra hc
      have : P v = true := by simpa using hc
      simp [List.filter_cons, this] at h
    have hrest : rest.filter P = [] := by
      simpa [List.filter_cons, hv] using h
    simp only [List.foldl_cons]
    rw [ih (upsertRow db v) hrest]
    rw [upsertRow_eq]
    cases hk : hasDC db v.domain v.code
    · simp [hk, List.filter_append, hv]
    · simp [hk]

/-- Upserting a batch whose only matching row is u, into a table with no
matching row, leaves exactly u as the matching row. -/
theorem foldl_upsert_filter_single (domain c : String) (u : Row) (l : List Row) :
    ∀ (db : List Row),
      db.filter (fun r => r.domain == domain && r.code == c) = [] →
      l.filter (fun r => r.domain == domain && r.code == c) = [u] →
      (l.foldl upsertRow db).filter (fun r => r.domain == domain && r.code == c) = [u] := by
  induction l with
  | nil => intro db _ hl; simp at hl
  | cons v rest ih =>
    intro db hdb hl
    simp only [List.foldl_cons]
    cases hv : (fun r : Row => r.domain == domain && r.code == c) v
    · -- the head row does not match: it cannot disturb the filtered view
      have hrest : rest.filter (fun r => r.domain == domain && r.code == c) = [u] := by
        rw [List.filter_cons] at hl
        have hv2 : (v.domain == domain && v.code == c) = false := hv
        rwa [if_neg (by rw [hv2]; exact Bool.false_ne_true)] at hl
      have hdb2 : (upsertRow db v).filter (fun r => r.domain == domain && r.code == c) = [] := by
        rw [upsertRow_eq]
        cases hk : hasDC db v.domain v.code
        · have hv2 : (v.domain == domain && v.code == c) = false := hv
          simp [hk, List.filter_append, hv2, hdb]
        · simp [hk, hdb]
      exact ih (upsertRow db v) hdb2 hrest
    · -- the head row matches: it must be u, and it gets inserted
      have hv2 : (v.domain == domain && v.code == c) = true := hv
      have hvu : v = u ∧ rest.filter (fun r => r.domain == domain && r.code == c) = [] := by
        rw [List.filter_cons, if_pos hv2] at hl
        exact ⟨List.head_eq_of_cons_eq hl, List.tail_eq_of_cons_eq hl⟩
      have hvd : v.domain = domain ∧ v.code = c := by
        simpa only [Bool.and_eq_true, beq_iff_eq] using hv2
      have hnk : hasDC db v.domain v.code = false := by
        cases hk : hasDC db v.domain v.code
        · rfl
        · exfalso
          unfold hasDC at hk
          rcases List.any_eq_true.mp hk with ⟨q, hq, hqp⟩
          have hqP : (q.domain == domain && q.code == c) = true := by
            simp only [Bool.and_eq_true, beq_iff_eq] at hqp ⊢
            exact ⟨hqp.1.trans hvd.1, hqp.2.trans hvd.2⟩
          have hmem : q ∈ db.filter (fun r => r.domain == domain && r.code == c) :=
            List.mem_filter.mpr ⟨hq, hqP⟩
          rw [hdb] at hmem
          cases hmem
      have hins : upsertRow db v = db ++ [v] := by
        rw [upsertRow_eq, if_neg (by rw [hnk]; exact Bool.false_ne_true)]
      rw [hins]
      rw [foldl_upsert_filter_none _ rest (db ++ [v]) hvu.2]
      rw [List.filter_append, hdb, List.filter_cons, if_pos hv2]
      rw [hvu.1]
      rfl

/-- find? returns the head of the filtered list. -/
theorem find?_eq_filter_head? {α : Type} (p : α → Bool) :
    ∀ (l : List α), l.find? p = (l.filter p).head? := by
  intro l
  induction l with
  | nil => rfl
  | cons a rest ih =>
    cases ha : p a
    · rw [List.find?_cons_of_neg _ (by simp [ha]), List.filter_cons, ha]
      simp only [if_neg Bool.false_ne_true]
      exact ih
    · rw [List.find?_cons_of_pos _ ha, List.filter_cons, ha]
      rfl

/-- On a list of rows all carrying the given domain, filtering by
(domain, code) is filtering by code. -/
theorem filter_domain_code (domain c : String) (l : List Row)
    (h : ∀ r ∈ l, r.domain = domain) :
    l.filter (fun r => r.domain == domain && r.code == c)
      = l.filter (fun r => r.code == c) := by
  induction l with
  | nil => rfl
  | cons v rest ih =>
    have hv : v.domain = domain := h v (List.mem_cons_self v rest)
    have hrest := ih (fun r hr => h r (List.mem_cons_of_mem v hr))
    simp [List.filter_cons, hv, hrest]

/-- The uniqueMap fold can only grow. -/
theorem uniqueFold_length_mono (domain : String) (offers : List OfferIn) :
    ∀ (acc : List Row), acc.length ≤ (offers.foldl (uniqueAdd domain) acc).length := by
  induction offers with
  | nil => intro acc; simp
  | cons o rest ih =>
    intro acc
    refine le_trans ?_ (ih (uniqueAdd domain acc o))
    unfold uniqueAdd
    by_cases hc : acc.any (fun r => buildKey domain r.code == buildKey domain o.code) = true
    · rw [if_pos hc]
    · rw [if_neg (by simpa using hc)]; simp

/-! ## C2, C5, C6: the persistence claims -/

/-- C2: for every domain and every offer list containing two or more
offers with the same (domain, code) pair, save persists exactly one row
for that key, and that row carries the discount, terms and verified
values of the first offer seen with that key (no merging of later
conflicting metadata).  The table is assumed to have no pre-existing
row for the key, as within one scan of a fresh key. -/
theorem save_dedup_first_write_wins (domain c : String)
    (offers : List OfferIn) (db : List Row)
    (h2 : 2 ≤ (offers.filter (fun o => o.code == c)).length)
    (hdb : ∀ r ∈ db, ¬(r.domain = domain ∧ r.code = c)) :
    ∃ first, (offers.filter (fun o => o.code == c)).head? = some first ∧
      (saveToDatabase domain offers db).filter
        (fun r => r.domain == domain && r.code == c) = [mkRow domain first] := by
  have hne : offers.filter (fun o => o.code == c) ≠ [] := by
    intro hc; rw [hc] at h2; simp at h2
  rcases List.exists_mem_of_ne_nil _ hne with ⟨x, _⟩
  obtain ⟨first, rest2, hfr⟩ : ∃ f r2, offers.filter (fun o => o.code == c) = f :: r2 := by
    cases hfl : offers.filter (fun o => o.code == c) with
    | nil => exact absurd hfl hne
    | cons f r2 => exact ⟨f, r2, rfl⟩
  refine ⟨first, by rw [hfr]; rfl, ?_⟩
  -- the filtered view of the dedup result is exactly the first offer's row
  have hfind : offers.find? (fun o => o.code == c) = some first := by
    rw [find?_eq_filter_head?, hfr]; rfl
  have hucf : (uniqueCoupons domain offers).filter (fun r => r.code == c)
      = [mkRow domain first] := by
    unfold uniqueCoupons
    rw [uniqueFold_filter domain c offers []]
    simp [hfind]
  have hdomains : ∀ r ∈ uniqueCoupons domain offers, r.domain = domain :=
    uniqueFold_domain domain offers [] (by intro r hr; cases hr)
  have hucP : (uniqueCoupons domain offers).filter
      (fun r => r.domain == domain && r.code == c) = [mkRow domain first] := by
    rw [filter_domain_code domain c _ hdomains]; exact hucf
  have hdbP : db.filter (fun r => r.domain == domain && r.code == c) = [] := by
    refine List.filter_eq_nil_iff.mpr ?_
    intro r hr
    have := hdb r hr
    simp only [Bool.and_eq_true, beq_iff_eq]
    tauto
  have hucne : (uniqueCoupons domain offers).length ≠ 0 := by
    intro hc
    have : uniqueCoupons domain offers = [] := List.length_eq_zero.mp hc
    rw [this] at hucP
    simp at hucP
  unfold saveToDatabase
  simp only [if_neg hucne]
  exact foldl_upsert_filter_single domain c (mkRow domain first)
    (uniqueCoupons domain offers) db hdbP hucP

/-- Witness for C2 at a concrete input: two offers with the same code,
differing metadata; exactly one row is stored, with the first offer's
metadata. -/
theorem save_dedup_first_write_wins_witness :
    (saveToDatabase "shop.com"
        [⟨"SAVE5", "5 off", "one use", true⟩, ⟨"SAVE5", "50 off", "no limit", false⟩]
        []).filter
      (fun r => r.domain == "shop.com" && r.code == "SAVE5")
      = [mkRow "shop.com" ⟨"SAVE5", "5 off", "one use", true⟩] := by
  have h := save_dedup_first_write_wins "shop.com" "SAVE5"
    [⟨"SAVE5", "5 off", "one use", true⟩, ⟨"SAVE5", "50 off", "no limit", false⟩]
    [] (by decide) (by intro r hr; cases hr)
  rcases h with ⟨first, hh, hf⟩
  have : first = ⟨"SAVE5", "5 off", "one use", true⟩ := by
    have hcalc : (List.filter (fun o => o.code == "SAVE5")
        [OfferIn.mk "SAVE5" "5 off" "one use" true,
         OfferIn.mk "SAVE5" "50 off" "no limit" false]).head?
        = some (OfferIn.mk "SAVE5" "5 off" "one use" true) := by decide
    rw [hcalc] at hh
    exact (Option.some_inj.mp hh).symm
  rw [this] at hf
  exact hf

/-- C5: calling save twice with the same domain and offers leaves the
persisted store in the same state as calling it once (the upsert is a
no-op for keys already present). -/
theorem save_idempotent (domain : String) (offers : List OfferIn) (db : List Row) :
    saveToDatabase domain offers (saveToDatabase domain offers db)
      = saveToDatabase domain offers db := by
  unfold saveToDatabase
  by_cases h : (uniqueCoupons domain offers).length = 0
  · simp [h]
  · simp only [if_neg h]
    refine foldl_upsert_all_present (uniqueCoupons domain offers) _ ?_
    intro r hr
    exact hasDC_foldl_mem (uniqueCoupons domain offers) db r hr

/-- C6: saving an empty resolved-offer sequence changes nothing: no
previously persisted row is modified, overwritten or deleted. -/
theorem save_empty_noop (domain : String) (db : List Row) :
    saveToDatabase domain [] db = db := rfl

/-! ## Code Resolver: offer candidates and modal-batch processing -/

/-- One coupon candidate as built by the listing-page extraction
(scrape.js lines 344-352): id counter, code (sentinel when no inline
code was found), discount, terms, verified flag, constant source, and
the element id kept for debugging. -/
structure Coupon where
  id : Nat
  code : String
  discount : String
  terms : String
  verified : Bool
  source : String
  elementId : String
deriving DecidableEq

/-- A coupon with the internal elementId stripped, as returned by
scrapeCoupons (scrape.js lines 410-413). -/
structure CleanCoupon where
  id : Nat
  code : String
  discount : String
  terms : String
  verified : Bool
  source : String
deriving DecidableEq

/-- Strip the internal elementId property (scrape.js lines 410-413). -/
def cleanCoupon (c : Coupon) : CleanCoupon :=
  ⟨c.id, c.code, c.discount, c.terms, c.verified, c.source⟩

/-- One entry of the pendingCoupons list (scrape.js lines 372-377):
the modal url, the index into the coupon array, and the coupon itself. -/
structure PendingItem where
  url : Option String
  index : Nat
  coupon : Coupon
deriving DecidableEq

/-- What one modal-page visit produced: err when navigation or
extraction threw (the catch at scrape.js line 622), ok code when the
page evaluate call returned that string. -/
inductive ModalOutcome where
  | err
  | ok (code : String)
deriving DecidableEq

/-- In-place update of one list position, modeling the JS array
assignment completeCoupons[item.index].code = code. -/
def listModify : List Coupon → Nat → (Coupon → Coupon) → List Coupon
  | [], _, _ => []
  | c :: rest, 0, f => f c :: rest
  | c :: rest, n + 1, f => c :: listModify rest n f

/-- The per-item body of processModalBatch (scrape.js lines 492-628):
the oracle gives the outcome of navigating the item's modal url and
running the selector fallback chain; the coupon at the item's index is
updated only when the extracted code is truthy and not the sentinel
(line 607), and a thrown error leaves the array untouched. -/
def applyItem (oracle : Nat → ModalOutcome) (cc : List Coupon) (item : PendingItem) :
    List Coupon :=
  match oracle item.index with
  | ModalOutcome.err => cc
  | ModalOutcome.ok code =>
    if code ≠ "" ∧ code ≠ sentinel then
      listModify cc item.index (fun c => { c with code := code })
    else cc

/-- The net effect of one item on its own array slot. -/
def itemTransform (oracle : Nat → ModalOutcome) (item : PendingItem) : Coupon → Coupon :=
  match oracle item.index with
  | ModalOutcome.err => id
  | ModalOutcome.ok code =>
    if code ≠ "" ∧ code ≠ sentinel then (fun c => { c with code := code }) else id

/-- processModalBatch (scrape.js lines 440-641) acting on the shared
coupon array plus an attempt log: every batch item gets exactly one
resolution attempt.  The page pool (min(batchItems.length, concurrentLimit)
pages, items assigned to pool slots round-robin) only multiplexes which
page handle serves an item; each item's outcome is its own oracle value
and each item writes only its own index, so the pool size cannot change
the data result and does not appear here.  The concurrent batch
promises are modeled as a fold: distinct items touch distinct indices. -/
def processModalBatch (oracle : Nat → ModalOutcome)
    (st : List Coupon × List Nat) (batch : List PendingItem) : List Coupon × List Nat :=
  batch.foldl (fun s item => (applyItem oracle s.1 item, s.2 ++ [item.index])) st

/-- The pendingCoupons construction of scrapeCoupons (scrape.js lines
372-378): pair every modal url with the coupon at the same position
(both arrays are filled in lockstep by the page evaluate), keep the
position as index, and filter to items with a truthy url and the
sentinel code. -/
def mkPendingAux : Nat → List (Option String × Coupon) → List PendingItem
  | _, [] => []
  | i, (u, c) :: rest =>
    if jsTruthy u && c.code == sentinel then
      ⟨u, i, c⟩ :: mkPendingAux (i + 1) rest
    else mkPendingAux (i + 1) rest

/-- The full pending list (scrape.js lines 372-378). -/
def mkPending (urls : List (Option String)) (coupons : List Coupon) : List PendingItem :=
  mkPendingAux 0 (urls.zip coupons)

/-- The batch partition of the pending list (scrape.js lines 380-391):
totalBatches = ceil(total / batchSize) and batch b is the slice
[b * batchSize, min((b+1) * batchSize, total)). -/
def batchSlices (bs : Nat) (l : List PendingItem) : List (List PendingItem) :=
  (List.range ((l.length + bs - 1) / bs)).map (fun b => (l.drop (b * bs)).take bs)

/-- The modal-resolution phase of scrapeCoupons (scrape.js lines
364-407): completeCoupons starts as a copy of basicCoupons; when there
are modal urls the pending items are processed batch after batch, each
batch updating completeCoupons in place.  The second component logs one
entry per resolution attempt, in order. -/
def resolveCodes (oracle : Nat → ModalOutcome) (coupons : List Coupon)
    (urls : List (Option String)) (bs : Nat) : List Coupon × List Nat :=
  if 0 < urls.length then
    (batchSlices bs (mkPending urls coupons)).foldl (processModalBatch oracle) (coupons, [])
  else (coupons, [])

/-- The final result of scrapeCoupons on a successful pass (scrape.js
lines 410-413): the resolved array with elementId stripped, paired with
the attempt log. -/
def scrapeCouponsResolve (oracle : Nat → ModalOutcome) (coupons : List Coupon)
    (urls : List (Option String)) (bs : Nat) : List CleanCoupon × List Nat :=
  ((resolveCodes oracle coupons urls bs).1.map cleanCoupon,
   (resolveCodes oracle coupons urls bs).2)

/-- Position j of the listing is pending: a truthy modal url and the
sentinel code (the filter of scrape.js line 378). -/
def pendingPos (urls : List (Option String)) (coupons : List Coupon) (j : Nat) : Bool :=
  match urls[j]?, coupons[j]? with
  | some u, some c => jsTruthy u && c.code == sentinel
  | _, _ => false

/-! ## Slicing lemmas: the batches partition the pending list -/

theorem batchSlices_nil (bs : Nat) (hbs : 0 < bs) :
    batchSlices bs ([] : List PendingItem) = [] := by
  unfold batchSlices
  have h0 : (([] : List PendingItem).length + bs - 1) / bs = 0 :=
    Nat.div_eq_of_lt (by simp; omega)
  rw [h0]
  rfl

theorem batchSlices_cons (bs : Nat) (hbs : 0 < bs) (l : List PendingItem)
    (hl : 0 < l.length) :
    batchSlices bs l = l.take bs :: batchSlices bs (l.drop bs) := by
  unfold batchSlices
  have hlen : (l.drop bs).length = l.length - bs := by simp
  rw [hlen]
  have ht : (l.length + bs - 1) / bs = (l.length - bs + bs - 1) / bs + 1 := by
    rcases le_or_lt bs l.length with h | h
    · have e1 : l.length + bs - 1 = (l.length - 1) + bs := by omega
      have e2 : l.length - bs + bs - 1 = l.length - 1 := by omega
      rw [e1, e2, Nat.add_div_right _ hbs]
    · have e1 : l.length - bs + bs - 1 = bs - 1 := by omega
      have e2 : (bs - 1) / bs = 0 := Nat.div_eq_of_lt (by omega)
      have e3 : (l.length + bs - 1) / bs = 1 := by
        apply Nat.div_eq_of_lt_le
        · omega
        · omega
      rw [e1, e2, e3]
  rw [ht, List.range_succ_eq_map, List.map_cons]
  congr 1
  · simp
  · rw [List.map_map]
    have hfun : ((fun b => (l.drop (b * bs)).take bs) ∘ Nat.succ)
        = (fun b => ((l.drop bs).drop (b * bs)).take bs) := by
      funext b
      simp only [Function.comp_apply, Nat.succ_mul, List.drop_drop]
      rw [Nat.add_comm]
    rw [hfun]

theorem batchSlices_join (bs : Nat) (hbs : 0 < bs) :
    ∀ (n : Nat) (l : List PendingItem), l.length ≤ n → (batchSlices bs l).flatten = l := by
  intro n
  induction n with
  | zero =>
    intro l hl
    have : l = [] := List.length_eq_zero.mp (Nat.le_zero.mp hl)
    rw [this, batchSlices_nil bs hbs]
    rfl
  | succ n ih =>
    intro l hl
    cases l with
    | nil => rw [batchSlices_nil bs hbs]; rfl
    | cons a as =>
      rw [batchSlices_cons bs hbs (a :: as) (by simp)]
      rw [List.flatten_cons]
      rw [ih ((a :: as).drop bs) (by
        simp only [List.length_drop, List.length_cons]
        simp only [List.length_cons] at hl
        omega)]
      exact List.take_append_drop bs (a :: as)

/-- Folding the batch processor over the slices is folding the per-item
step over the whole pending list: batches run strictly sequentially and
partition the pending items. -/
theorem foldl_batchSlices (oracle : Nat → ModalOutcome) (bs : Nat) (hbs : 0 < bs)
    (p : List PendingItem) (st : List Coupon × List Nat) :
    (batchSlices bs p).foldl (processModalBatch oracle) st = processModalBatch oracle st p := by
  conv_rhs => rw [← batchSlices_join bs hbs p.length p le_rfl]
  show (batchSlices bs p).foldl (processModalBatch oracle) st
      = List.foldl (fun s item => (applyItem oracle s.1 item, s.2 ++ [item.index])) st
          (batchSlices bs p).flatten
  rw [List.foldl_flatten]
  rfl

/-! ## Per-item and per-batch behaviour -/

theorem listModify_length :
    ∀ (l : List Coupon) (i : Nat) (f : Coupon → Coupon),
      (listModify l i f).length = l.length := by
  intro l
  induction l with
  | nil => intro i f; rfl
  | cons c rest ih =>
    intro i f
    cases i with
    | zero => rfl
    | succ n => simp [listModify, ih]

theorem listModify_get_ne :
    ∀ (l : List Coupon) (i j : Nat) (f : Coupon → Coupon), i ≠ j →
      (listModify l i f)[j]? = l[j]? := by
  intro l
  induction l with
  | nil => intro i j f _; rfl
  | cons c rest ih =>
    intro i j f hij
    cases i with
    | zero =>
      cases j with
      | zero => exact absurd rfl hij
      | succ m => simp [listModify]
    | succ n =>
      cases j with
      | zero => simp [listModify]
      | succ m =>
        simp only [listModify, List.getElem?_cons_succ]
        exact ih n m f (fun h => hij (by rw [h]))

theorem listModify_get_eq :
    ∀ (l : List Coupon) (i : Nat) (f : Coupon → Coupon),
      (listModify l i f)[i]? = (l[i]?).map f := by
  intro l
  induction l with
  | nil => intro i f; rfl
  | cons c rest ih =>
    intro i f
    cases i with
    | zero => simp [listModify]
    | succ n => simp [listModify, ih]

theorem applyItem_length (oracle : Nat → ModalOutcome) (cc : List Coupon)
    (item : PendingItem) : (applyItem oracle cc item).length = cc.length := by
  unfold applyItem
  cases oracle item.index with
  | err => rfl
  | ok code =>
    by_cases h : code ≠ "" ∧ code ≠ sentinel
    · simp [h, listModify_length]
    · simp [h]

theorem applyItem_get_ne (oracle : Nat → ModalOutcome) (cc : List Coupon)
    (item : PendingItem) (j : Nat) (h : item.index ≠ j) :
    (applyItem oracle cc item)[j]? = cc[j]? := by
  unfold applyItem
  cases oracle item.index with
  | err => rfl
  | ok code =>
    by_cases hc : code ≠ "" ∧ code ≠ sentinel
    · simp only [if_pos hc]
      exact listModify_get_ne cc item.index j _ h
    · simp [hc]

theorem applyItem_get_eq (oracle : Nat → ModalOutcome) (cc : List Coupon)
    (item : PendingItem) :
    (applyItem oracle cc item)[item.index]?
      = (cc[item.index]?).map (itemTransform oracle item) := by
  unfold applyItem itemTransform
  cases oracle item.index with
  | err => simp
  | ok code =>
    by_cases hc : code ≠ "" ∧ code ≠ sentinel
    · simp only [if_pos hc]
      exact listModify_get_eq cc item.index _
    · simp [hc]

theorem processModalBatch_nil (oracle : Nat → ModalOutcome) (st : List Coupon × List Nat) :
    processModalBatch oracle st [] = st := rfl

theorem processModalBatch_cons (oracle : Nat → ModalOutcome) (st : List Coupon × List Nat)
    (b : PendingItem) (rest : List PendingItem) :
    processModalBatch oracle st (b :: rest)
      = processModalBatch oracle (applyItem oracle st.1 b, st.2 ++ [b.index]) rest := rfl

/-- The attempt log of one batch: exactly one entry per batch item, in
batch order. -/
theorem processModalBatch_snd (oracle : Nat → ModalOutcome) :
    ∀ (batch : List PendingItem) (st : List Coupon × List Nat),
      (processModalBatch oracle st batch).2 = st.2 ++ batch.map PendingItem.index := by
  intro batch
  induction batch with
  | nil => intro st; simp [processModalBatch_nil]
  | cons b rest ih =>
    intro st
    rw [processModalBatch_cons, ih]
    simp

/-- A batch never changes the number of coupons. -/
theorem processModalBatch_length (oracle : Nat → ModalOutcome) :
    ∀ (batch : List PendingItem) (st : List Coupon × List Nat),
      (processModalBatch oracle st batch).1.length = st.1.length := by
  intro batch
  induction batch with
  | nil => intro st; rfl
  | cons b rest ih =>
    intro st
    rw [processModalBatch_cons, ih]
    exact applyItem_length oracle st.1 b

/-- A position touched by no batch item is left unchanged. -/
theorem processModalBatch_untouched (oracle : Nat → ModalOutcome) (j : Nat) :
    ∀ (batch : List PendingItem), (∀ x ∈ batch, x.index ≠ j) →
      ∀ (st : List Coupon × List Nat),
        (processModalBatch oracle st batch).1[j]? = st.1[j]? := by
  intro batch
  induction batch with
  | nil => intro _ st; rfl
  | cons b rest ih =>
    intro h st
    rw [processModalBatch_cons]
    rw [ih (fun x hx => h x (List.mem_cons_of_mem b hx))]
    exact applyItem_get_ne oracle st.1 b j (h b (List.mem_cons_self b rest))

/-- In a batch whose items have pairwise-distinct indices, every item's
slot ends up as its own single resolution attempt dictates, whatever
the other items' outcomes are. -/
theorem processModalBatch_self (oracle : Nat → ModalOutcome) :
    ∀ (batch : List PendingItem),
      batch.Pairwise (fun a b => a.index ≠ b.index) →
      ∀ j ∈ batch, ∀ (st : List Coupon × List Nat),
        (processModalBatch oracle st batch).1[j.index]?
          = (st.1[j.index]?).map (itemTransform oracle j) := by
  intro batch
  induction batch with
  | nil => intro _ j hj; cases hj
  | cons b rest ih =>
    intro hd j hj st
    have hb : ∀ x ∈ rest, b.index ≠ x.index := (List.pairwise_cons.mp hd).1
    have hr : rest.Pairwise (fun a b => a.index ≠ b.index) := (List.pairwise_cons.mp hd).2
    rw [processModalBatch_cons]
    rcases List.mem_cons.mp hj with h1 | h2
    · rw [h1]
      rw [processModalBatch_untouched oracle b.index rest
        (fun x hx => fun he => hb x hx he.symm) _]
      exact applyItem_get_eq oracle st.1 b
    · rw [ih hr j h2]
      rw [applyItem_get_ne oracle st.1 b j.index (hb j h2)]

/-! ## The pending list: indices, bounds, and the pending predicate -/

theorem mkPendingAux_mem :
    ∀ (l : List (Option String × Coupon)) (i : Nat) (x : PendingItem),
      x ∈ mkPendingAux i l →
      i ≤ x.index ∧ x.index - i < l.length
      ∧ l[x.index - i]? = some (x.url, x.coupon)
      ∧ jsTruthy x.url = true ∧ x.coupon.code = sentinel := by
  intro l
  induction l with
  | nil => intro i x hx; cases hx
  | cons p rest ih =>
    intro i x hx
    obtain ⟨u, c⟩ := p
    unfold mkPendingAux at hx
    by_cases hc : (jsTruthy u && c.code == sentinel) = true
    · rw [if_pos hc] at hx
      rcases List.mem_cons.mp hx with h1 | h2
      · rw [h1]
        have hc2 : jsTruthy u = true ∧ (c.code == sentinel) = true := by simpa using hc
        refine ⟨le_rfl, by simp, by simp, hc2.1, by simpa using hc2.2⟩
      · rcases ih (i + 1) x h2 with ⟨ha, hb, hcc, hd, he⟩
        refine ⟨le_trans (Nat.le_succ i) ha, ?_, ?_, hd, he⟩
        · simp only [List.length_cons]; omega
        · have hidx : x.index - i = (x.index - (i + 1)) + 1 := by omega
          rw [hidx]
          simpa using hcc
    · rw [if_neg hc] at hx
      rcases ih (i + 1) x hx with ⟨ha, hb, hcc, hd, he⟩
      refine ⟨le_trans (Nat.le_succ i) ha, ?_, ?_, hd, he⟩
      · simp only [List.length_cons]; omega
      · have hidx : x.index - i = (x.index - (i + 1)) + 1 := by omega
        rw [hidx]
        simpa using hcc

theorem zip_getElem_some {α β : Type} :
    ∀ (l1 : List α) (l2 : List β) (i : Nat) (a : α) (b : β),
      (l1.zip l2)[i]? = some (a, b) → l1[i]? = some a ∧ l2[i]? = some b := by
  intro l1
  induction l1 with
  | nil => intro l2 i a b h; simp at h
  | cons x xs ih =>
    intro l2 i a b h
    cases l2 with
    | nil => simp at h
    | cons y ys =>
      cases i with
      | zero =>
        simp only [List.zip_cons_cons, List.getElem?_cons_zero,
          Option.some.injEq, Prod.mk.injEq] at h
        simp [h.1, h.2]
      | succ n =>
        simp only [List.zip_cons_cons, List.getElem?_cons_succ] at h ⊢
        exact ih ys n a b h

/-- Every item of the pending list sits at a pending position of the
original listing. -/
theorem mkPending_pendingPos (urls : List (Option String)) (coupons : List Coupon)
    (x : PendingItem) (hx : x ∈ mkPending urls coupons) :
    pendingPos urls coupons x.index = true := by
  rcases mkPendingAux_mem (urls.zip coupons) 0 x hx with ⟨_, _, hget, ht, hs⟩
  rw [Nat.sub_zero] at hget
  rcases zip_getElem_some urls coupons x.index x.url x.coupon hget with ⟨h1, h2⟩
  unfold pendingPos
  rw [h1, h2]
  simp [ht, hs]

/-! ## C1: exactly the pending candidates are resolved -/

/-- C1: for every listing scan, exactly the candidates that are pending
(truthy detailRef and sentinel code) receive a resolution attempt, and
every other candidate bypasses the resolver unchanged; the final
sequence keeps the listing's length and order. -/
theorem resolver_filters_pending (coupons : List Coupon) (urls : List (Option String))
    (oracle : Nat → ModalOutcome) (bs : Nat) (hbs : 0 < bs) :
    (scrapeCouponsResolve oracle coupons urls bs).2
        = (mkPending urls coupons).map PendingItem.index
    ∧ (scrapeCouponsResolve oracle coupons urls bs).1.length = coupons.length
    ∧ ∀ j, pendingPos urls coupons j = false →
        (scrapeCouponsResolve oracle coupons urls bs).1[j]?
          = (coupons[j]?).map cleanCoupon := by
  by_cases hurls : 0 < urls.length
  · have hres : resolveCodes oracle coupons urls bs
        = processModalBatch oracle (coupons, []) (mkPending urls coupons) := by
      unfold resolveCodes
      rw [if_pos hurls]
      exact foldl_batchSlices oracle bs hbs _ _
    unfold scrapeCouponsResolve
    rw [hres]
    refine ⟨?_, ?_, ?_⟩
    · rw [processModalBatch_snd]
      rfl
    · rw [List.length_map, processModalBatch_length]
    · intro j hj
      have hne : ∀ x ∈ mkPending urls coupons, x.index ≠ j := by
        intro x hx he
        rw [← he] at hj
        rw [mkPending_pendingPos urls coupons x hx] at hj
        cases hj
      rw [List.getElem?_map, processModalBatch_untouched oracle j _ hne (coupons, [])]
  · have hu : urls = [] := by
      cases urls with
      | nil => rfl
      | cons u us => exact absurd (by simp) hurls
    have hres : resolveCodes oracle coupons urls bs = (coupons, []) := by
      unfold resolveCodes
      rw [if_neg hurls]
    have hmp : mkPending urls coupons = [] := by rw [hu]; rfl
    unfold scrapeCouponsResolve
    rw [hres, hmp]
    refine ⟨rfl, by simp, ?_⟩
    intro j _
    exact List.getElem?_map cleanCoupon coupons j

/-! ## The C1 scenario: 7 coupon candidates, 2 inline, 5 pending -/

/-- The listing scan of the spec scenario: 7 coupon-type candidates in
DOM order, the first and fourth already carrying inline codes, the
other five left at the sentinel. -/
def scenarioCoupons : List Coupon :=
  [⟨1, "INLINE10", "10 off", "Terms apply", true, "CouponFollow", "e1"⟩,
   ⟨2, sentinel, "15 off", "Terms apply", false, "CouponFollow", "e2"⟩,
   ⟨3, sentinel, "20 off", "Terms apply", true, "CouponFollow", "e3"⟩,
   ⟨4, "INLINE20", "25 off", "Terms apply", true, "CouponFollow", "e4"⟩,
   ⟨5, sentinel, "30 off", "Terms apply", false, "CouponFollow", "e5"⟩,
   ⟨6, sentinel, "35 off", "Terms apply", true, "CouponFollow", "e6"⟩,
   ⟨7, sentinel, "40 off", "Terms apply", true, "CouponFollow", "e7"⟩]

/-- The matching per-candidate modal urls: the five pending candidates
carry a detail reference; one inline candidate also has one (it is
bypassed anyway) and the other has none. -/
def scenarioUrls : List (Option String) :=
  [some "https://couponfollow.com/site/m1",
   some "https://couponfollow.com/site/m2",
   some "https://couponfollow.com/site/m3",
   none,
   some "https://couponfollow.com/site/m5",
   some "https://couponfollow.com/site/m6",
   some "https://couponfollow.com/site/m7"]

/-- The modal outcomes of the scenario: one extraction succeeds, one
navigation throws, one returns an empty string, one returns the
sentinel, one succeeds. -/
def scenarioOracle : Nat → ModalOutcome :=
  fun i =>
    if i = 1 then ModalOutcome.ok "ALPHA"
    else if i = 2 then ModalOutcome.err
    else if i = 4 then ModalOutcome.ok ""
    else if i = 5 then ModalOutcome.ok "AUTOMATIC"
    else ModalOutcome.ok "ZETA"

/-- Witness for C1 at the spec scenario (batch size 5): exactly 5
resolution attempts, on the 5 pending positions; 2 candidates bypassed;
final sequence of length 7 in original listing order. -/
theorem resolver_filters_pending_witness :
    (0 : Nat) < 5
    ∧ (scrapeCouponsResolve scenarioOracle scenarioCoupons scenarioUrls 5).2 = [1, 2, 4, 5, 6]
    ∧ (scrapeCouponsResolve scenarioOracle scenarioCoupons scenarioUrls 5).2.length = 5
    ∧ (scrapeCouponsResolve scenarioOracle scenarioCoupons scenarioUrls 5).1.length = 7
    ∧ (scrapeCouponsResolve scenarioOracle scenarioCoupons scenarioUrls 5).1.map CleanCoupon.id
        = [1, 2, 3, 4, 5, 6, 7]
    ∧ (scrapeCouponsResolve scenarioOracle scenarioCoupons scenarioUrls 5).1.map CleanCoupon.code
        = ["INLINE10", "ALPHA", "AUTOMATIC", "INLINE20", "AUTOMATIC", "AUTOMATIC", "ZETA"] := by
  have h := resolver_filters_pending scenarioCoupons scenarioUrls scenarioOracle 5 (by decide)
  exact ⟨by decide, h.1.trans (by decide), by decide, h.2.1.trans (by decide),
    by decide, by decide⟩

/-! ## C3: batch isolation -/

/-- C3: in a batch of pending items with pairwise-distinct indices, a
navigation or extraction error on one item leaves that item's code at
the sentinel, and every other item's slot still ends up exactly as its
own resolution attempt dictates: the error never prevents the sibling
items from completing. -/
theorem batch_isolation (oracle : Nat → ModalOutcome) (cc : List Coupon)
    (batch : List PendingItem) (k : PendingItem)
    (hd : batch.Pairwise (fun a b => a.index ≠ b.index))
    (hk : k ∈ batch) (herr : oracle k.index = ModalOutcome.err)
    (hcode : (cc[k.index]?).map Coupon.code = some sentinel) :
    ((processModalBatch oracle (cc, []) batch).1[k.index]?).map Coupon.code = some sentinel
    ∧ ∀ j ∈ batch, j.index ≠ k.index →
        (processModalBatch oracle (cc, []) batch).1[j.index]?
          = (applyItem oracle cc j)[j.index]? := by
  constructor
  · rw [processModalBatch_self oracle batch hd k hk (cc, [])]
    have htr : itemTransform oracle k = id := by
      unfold itemTransform
      rw [herr]
    rw [htr]
    simpa using hcode
  · intro j hj _
    rw [processModalBatch_self oracle batch hd j hj (cc, [])]
    rw [applyItem_get_eq oracle cc j]

/-- A concrete 3-item batch for the C3 witness. -/
def exCoupon (i : Nat) : Coupon :=
  ⟨i, sentinel, "d", "t", false, "CouponFollow", "e"⟩

def exCC3 : List Coupon := [exCoupon 1, exCoupon 2, exCoupon 3]

def exBatch3 : List PendingItem :=
  [⟨some "m0", 0, exCoupon 1⟩, ⟨some "m1", 1, exCoupon 2⟩, ⟨some "m2", 2, exCoupon 3⟩]

def exItemMid : PendingItem := ⟨some "m1", 1, exCoupon 2⟩

def exOracle3 : Nat → ModalOutcome :=
  fun i =>
    if i = 0 then ModalOutcome.ok "ZIP0"
    else if i = 1 then ModalOutcome.err
    else ModalOutcome.ok "ZIP2"

/-- Witness for C3: the middle item of a 3-item batch errors; its code
stays at the sentinel while both siblings resolve. -/
theorem batch_isolation_witness :
    ((processModalBatch exOracle3 (exCC3, []) exBatch3).1[1]?).map Coupon.code = some sentinel
    ∧ (processModalBatch exOracle3 (exCC3, []) exBatch3).1.map Coupon.code
        = ["ZIP0", "AUTOMATIC", "ZIP2"] := by
  have h := batch_isolation exOracle3 exCC3 exBatch3 exItemMid
    (by decide) (by decide) rfl (by decide)
  exact ⟨h.1, by decide⟩

/-! ## Pipeline orchestration: per-domain retry and the bulk tally -/

/-- The retry recursion of scrapeCoupons (scrape.js lines 220, 414-429),
instrumented: one attempt outcome per retryCount (an attempt may throw
anywhere in its try block), and the result triple is the returned
coupon list, the number of attempts made, and the accumulated
inter-retry delay in ms (2000 per retry, line 425).  The JS guard is
retryCount < CONFIG.domainRetries; the recursion here is driven by the
equivalent remaining count retries - retryCount, making it structural:
remaining = 0 means the guard failed and the catch returns []. -/
def scrapeRetryAux (outcome : Nat → Except Unit (List CleanCoupon)) :
    Nat → Nat → List CleanCoupon × Nat × Nat
  | 0, rc =>
    match outcome rc with
    | Except.ok cs => (cs, 1, 0)
    | Except.error _ => ([], 1, 0)
  | r + 1, rc =>
    match outcome rc with
    | Except.ok cs => (cs, 1, 0)
    | Except.error _ =>
      let t := scrapeRetryAux outcome r (rc + 1)
      (t.1, t.2.1 + 1, t.2.2 + 2000)

/-- The same retry recursion viewed as the promise scrapeCoupons
returns: ok on every return path, error only if some path rethrew
(none does: the catch either recurses or returns []). -/
def scrapeRetryAuxE (outcome : Nat → Except Unit (List CleanCoupon)) :
    Nat → Nat → Except Unit (List CleanCoupon)
  | 0, rc =>
    match outcome rc with
    | Except.ok cs => Except.ok cs
    | Except.error _ => Except.ok []
  | r + 1, rc =>
    match outcome rc with
    | Except.ok cs => Except.ok cs
    | Except.error _ => scrapeRetryAuxE outcome r (rc + 1)

/-- scrapeCoupons with the instrumentation, at a given retryCount. -/
def scrapeCouponsTrace (outcome : Nat → Except Unit (List CleanCoupon))
    (retries rc : Nat) : List CleanCoupon × Nat × Nat :=
  scrapeRetryAux outcome (retries - rc) rc

/-- scrapeCoupons as the promise the callers await. -/
def scrapeCouponsE (outcome : Nat → Except Unit (List CleanCoupon))
    (retries rc : Nat) : Except Unit (List CleanCoupon) :=
  scrapeRetryAuxE outcome (retries - rc) rc

/-- The per-domain body of the bulk runner (scrape.js lines 831-849):
the first component is the success flag (a non-empty coupon list was
scraped, then saved); the second records whether the catch branch of
the runner was taken (the awaited promise rejected). -/
def processDomain (scraped : Except Unit (List CleanCoupon)) : Bool × Bool :=
  match scraped with
  | Except.ok cs => (decide (0 < cs.length), false)
  | Except.error _ => (false, true)

/-- Whether a domain with the given attempt outcomes is tallied as a
success by main. -/
def domainSuccess (outcome : Nat → Except Unit (List CleanCoupon)) (retries : Nat) : Bool :=
  (processDomain (scrapeCouponsE outcome retries 0)).1

/-- The success/failure tally of main (scrape.js lines 797-798,
853-862). -/
structure Tally where
  succ : Nat
  fail : Nat
deriving DecidableEq

/-- One domain's contribution to the tally (scrape.js lines 854-861). -/
def mainTallyStep (outcomes : String → Nat → Except Unit (List CleanCoupon)) (retries : Nat)
    (t : Tally) (d : String) : Tally :=
  if (processDomain (scrapeCouponsE (outcomes d) retries 0)).1
  then ⟨t.succ + 1, t.fail⟩ else ⟨t.succ, t.fail + 1⟩

/-- The bulk runner's tally over a batch of domains: every domain is
counted exactly once, success or failure (scrape.js lines 830-862). -/
def mainTally (domains : List String)
    (outcomes : String → Nat → Except Unit (List CleanCoupon)) (retries : Nat) : Tally :=
  domains.foldl (mainTallyStep outcomes retries) ⟨0, 0⟩

/-! ## Retry recursion lemmas -/

theorem scrapeRetryAux_ok (outcome : Nat → Except Unit (List CleanCoupon))
    (remaining rc : Nat) (cs : List CleanCoupon) (h : outcome rc = Except.ok cs) :
    scrapeRetryAux outcome remaining rc = (cs, 1, 0) := by
  cases remaining with
  | zero => simp only [scrapeRetryAux]; rw [h]
  | succ r => simp only [scrapeRetryAux]; rw [h]

theorem scrapeRetryAux_err_zero (outcome : Nat → Except Unit (List CleanCoupon))
    (rc : Nat) (h : outcome rc = Except.error ()) :
    scrapeRetryAux outcome 0 rc = ([], 1, 0) := by
  simp only [scrapeRetryAux]
  rw [h]

theorem scrapeRetryAux_err_succ (outcome : Nat → Except Unit (List CleanCoupon))
    (r rc : Nat) (h : outcome rc = Except.error ()) :
    scrapeRetryAux outcome (r + 1) rc
      = ((scrapeRetryAux outcome r (rc + 1)).1,
         (scrapeRetryAux outcome r (rc + 1)).2.1 + 1,
         (scrapeRetryAux outcome r (rc + 1)).2.2 + 2000) := by
  simp only [scrapeRetryAux]
  rw [h]

theorem scrapeRetryAuxE_eq_trace (outcome : Nat → Except Unit (List CleanCoupon)) :
    ∀ (remaining rc : Nat),
      scrapeRetryAuxE outcome remaining rc
        = Except.ok (scrapeRetryAux outcome remaining rc).1 := by
  intro remaining
  induction remaining with
  | zero =>
    intro rc
    cases h : outcome rc with
    | ok cs =>
      simp only [scrapeRetryAuxE]
      rw [h, scrapeRetryAux_ok outcome 0 rc cs h]
    | error e =>
      simp only [scrapeRetryAuxE]
      cases e
      rw [h, scrapeRetryAux_err_zero outcome rc h]
  | succ r ih =>
    intro rc
    cases h : outcome rc with
    | ok cs =>
      simp only [scrapeRetryAuxE]
      rw [h, scrapeRetryAux_ok outcome (r + 1) rc cs h]
    | error e =>
      simp only [scrapeRetryAuxE]
      cases e
      rw [h, scrapeRetryAux_err_succ outcome r rc h]
      exact ih (rc + 1)

/-- scrapeCoupons resolves on every path: once retries are exhausted it
returns the empty list instead of rethrowing. -/
theorem scrapeCouponsE_never_rejects (outcome : Nat → Except Unit (List CleanCoupon))
    (retries rc : Nat) : ∃ cs, scrapeCouponsE outcome retries rc = Except.ok cs := by
  exact ⟨_, scrapeRetryAuxE_eq_trace outcome (retries - rc) rc⟩

/-- When every attempt fails, the instrumented retry recursion makes
remaining + 1 attempts with 2000 ms of delay per retry and returns []. -/
theorem scrapeRetryAux_all_fail (outcome : Nat → Except Unit (List CleanCoupon)) :
    ∀ (remaining rc : Nat),
      (∀ k, rc ≤ k → k ≤ rc + remaining → outcome k = Except.error ()) →
      scrapeRetryAux outcome remaining rc = ([], remaining + 1, 2000 * remaining) := by
  intro remaining
  induction remaining with
  | zero =>
    intro rc h
    rw [scrapeRetryAux_err_zero outcome rc (h rc le_rfl (by omega))]
  | succ r ih =>
    intro rc h
    rw [scrapeRetryAux_err_succ outcome r rc (h rc le_rfl (by omega))]
    rw [ih (rc + 1) (fun k hk1 hk2 => h k (by omega) (by omega))]
    simp [Nat.mul_succ]

/-! ## Tally characterization -/

theorem filter_length_add (p : String → Bool) :
    ∀ (l : List String),
      (l.filter p).length + (l.filter (fun x => !(p x))).length = l.length := by
  intro l
  induction l with
  | nil => rfl
  | cons a rest ih =>
    cases ha : p a <;> simp [List.filter_cons, ha, ← ih] <;> omega

theorem mainTally_spec (outcomes : String → Nat → Except Unit (List CleanCoupon))
    (retries : Nat) :
    ∀ (domains : List String) (t : Tally),
      domains.foldl (mainTallyStep outcomes retries) t
        = ⟨t.succ + (domains.filter (fun d => domainSuccess (outcomes d) retries)).length,
           t.fail + (domains.filter (fun d => !(domainSuccess (outcomes d) retries))).length⟩ := by
  intro domains
  induction domains with
  | nil =>
    intro t
    cases t
    simp
  | cons d rest ih =>
    intro t
    rw [List.foldl_cons]
    cases hs : domainSuccess (outcomes d) retries
    · have hstep : mainTallyStep outcomes retries t d = ⟨t.succ, t.fail + 1⟩ := by
        unfold mainTallyStep
        rw [show (processDomain (scrapeCouponsE (outcomes d) retries 0)).1 = false from hs]
        rw [if_neg Bool.false_ne_true]
      have h1 : List.filter (fun x => domainSuccess (outcomes x) retries) (d :: rest)
          = List.filter (fun x => domainSuccess (outcomes x) retries) rest := by
        rw [List.filter_cons]
        simp [hs]
      have h2 : List.filter (fun x => !(domainSuccess (outcomes x) retries)) (d :: rest)
          = d :: List.filter (fun x => !(domainSuccess (outcomes x) retries)) rest := by
        rw [List.filter_cons]
        simp [hs]
      rw [hstep, ih ⟨t.succ, t.fail + 1⟩, h1, h2]
      dsimp only
      simp only [List.length_cons, Tally.mk.injEq]
      exact ⟨trivial, by omega⟩
    · have hstep : mainTallyStep outcomes retries t d = ⟨t.succ + 1, t.fail⟩ := by
        unfold mainTallyStep
        rw [show (processDomain (scrapeCouponsE (outcomes d) retries 0)).1 = true from hs]
        rw [if_pos rfl]
      have h1 : List.filter (fun x => domainSuccess (outcomes x) retries) (d :: rest)
          = d :: List.filter (fun x => domainSuccess (outcomes x) retries) rest := by
        rw [List.filter_cons]
        simp [hs]
      have h2 : List.filter (fun x => !(domainSuccess (outcomes x) retries)) (d :: rest)
          = List.filter (fun x => !(domainSuccess (outcomes x) retries)) rest := by
        rw [List.filter_cons]
        simp [hs]
      rw [hstep, ih ⟨t.succ + 1, t.fail⟩, h1, h2]
      dsimp only
      simp only [List.length_cons, Tally.mk.injEq]
      exact ⟨by omega, trivial⟩

/-! ## C4: retry exhaustion and the failure tally -/

/-- C4: when every attempt of the per-domain flow throws, the flow was
retried up to the retry count with a fixed 2 s inter-retry delay
(retries + 1 attempts and 2000 * retries ms of delay in total), the
domain resolves to the empty list, it is tallied as a failure and not a
success, and the bulk runner still tallies every domain of the batch
(one count per domain: it never crashes). -/
theorem domain_retry_exhaustion (retries : Nat)
    (outcome : Nat → Except Unit (List CleanCoupon))
    (hfail : ∀ k, k ≤ retries → outcome k = Except.error ()) :
    scrapeCouponsTrace outcome retries 0 = ([], retries + 1, 2000 * retries)
    ∧ domainSuccess outcome retries = false
    ∧ ∀ (domains : List String)
        (outcomes : String → Nat → Except Unit (List CleanCoupon)) (d : String),
        d ∈ domains → outcomes d = outcome →
        (mainTally domains outcomes retries).succ
            = (domains.filter (fun x => domainSuccess (outcomes x) retries)).length
        ∧ (mainTally domains outcomes retries).fail
            = (domains.filter (fun x => !(domainSuccess (outcomes x) retries))).length
        ∧ (mainTally domains outcomes retries).succ + (mainTally domains outcomes retries).fail
            = domains.length
        ∧ domainSuccess (outcomes d) retries = false := by
  have htrace : scrapeCouponsTrace outcome retries 0 = ([], retries + 1, 2000 * retries) := by
    unfold scrapeCouponsTrace
    rw [Nat.sub_zero]
    exact scrapeRetryAux_all_fail outcome retries 0
      (fun k hk1 hk2 => hfail k (by omega))
  have hsucc : domainSuccess outcome retries = false := by
    unfold domainSuccess scrapeCouponsE
    rw [scrapeRetryAuxE_eq_trace outcome (retries - 0) 0]
    show (processDomain (Except.ok (scrapeCouponsTrace outcome retries 0).1)).1 = false
    rw [htrace]
    rfl
  refine ⟨htrace, hsucc, ?_⟩
  intro domains outcomes d _ hd
  have hspec := mainTally_spec outcomes retries domains ⟨0, 0⟩
  have hm : mainTally domains outcomes retries
      = ⟨(domains.filter (fun x => domainSuccess (outcomes x) retries)).length,
         (domains.filter (fun x => !(domainSuccess (outcomes x) retries))).length⟩ := by
    unfold mainTally
    rw [hspec]
    simp
  refine ⟨by rw [hm], by rw [hm], ?_, by rw [hd]; exact hsucc⟩
  rw [hm]
  exact filter_length_add _ domains

/-- The all-failing attempt family of the C4 witness. -/
def exFailOutcome : Nat → Except Unit (List CleanCoupon) := fun _ => Except.error ()

/-- An attempt family that succeeds at once with one coupon. -/
def exGoodOutcome : Nat → Except Unit (List CleanCoupon) :=
  fun _ => Except.ok [⟨1, "X10", "10 off", "Terms apply", true, "CouponFollow"⟩]

/-- The per-domain outcome family of the C4 witness: one healthy
domain, one whose navigation throws on every attempt. -/
def exOutcomes : String → Nat → Except Unit (List CleanCoupon) :=
  fun d => if d = "bad.com" then exFailOutcome else exGoodOutcome

/-- Witness for C4: with retry count 2 every attempt of bad.com throws;
the flow made 3 attempts with 4000 ms of delay, bad.com lands in the
failure tally, and the two-domain batch still counts both domains. -/
theorem domain_retry_exhaustion_witness :
    scrapeCouponsTrace exFailOutcome 2 0 = ([], 3, 4000)
    ∧ mainTally ["good.com", "bad.com"] exOutcomes 2 = ⟨1, 1⟩ := by
  have h := domain_retry_exhaustion 2 exFailOutcome (fun k _ => rfl)
  exact ⟨h.1, by decide⟩

/-! ## C10: success tally counts exactly the non-empty scrapes -/

/-- The success flag is determined by the scraped list being non-empty. -/
theorem domainSuccess_eq_nonempty (outcome : Nat → Except Unit (List CleanCoupon))
    (retries : Nat) :
    domainSuccess outcome retries
      = decide (0 < (scrapeCouponsTrace outcome retries 0).1.length) := by
  unfold domainSuccess scrapeCouponsE
  rw [scrapeRetryAuxE_eq_trace outcome (retries - 0) 0]
  rfl

/-- C10: scrapeCoupons never rejects once its retries are exhausted (it
resolves to the empty list on total failure), so the catch branch
around the per-domain call in the bulk runner is unreachable via
scrapeCoupons itself, and a domain is counted in the success tally if
and only if its scrape resolved to a non-empty coupon list — a domain
that completes with zero coupons is tallied as a failure exactly like a
domain whose every attempt threw. -/
theorem bulk_success_iff_nonempty :
    (∀ (outcome : Nat → Except Unit (List CleanCoupon)) (retries rc : Nat),
        ∃ cs, scrapeCouponsE outcome retries rc = Except.ok cs)
    ∧ (∀ (outcome : Nat → Except Unit (List CleanCoupon)) (retries : Nat),
        (processDomain (scrapeCouponsE outcome retries 0)).2 = false)
    ∧ (∀ (domains : List String)
        (outcomes : String → Nat → Except Unit (List CleanCoupon)) (retries : Nat),
        (mainTally domains outcomes retries).succ
          = (domains.filter
              (fun d => decide (0 < (scrapeCouponsTrace (outcomes d) retries 0).1.length))).length
        ∧ (mainTally domains outcomes retries).fail
          = (domains.filter
              (fun d => !(decide (0 < (scrapeCouponsTrace (outcomes d) retries 0).1.length)))).length)
    ∧ (∀ retries : Nat,
        scrapeCouponsE (fun _ => Except.ok []) retries 0
          = scrapeCouponsE (fun _ => Except.error ()) retries 0) := by
  refine ⟨scrapeCouponsE_never_rejects, ?_, ?_, ?_⟩
  · intro outcome retries
    unfold scrapeCouponsE
    rw [scrapeRetryAuxE_eq_trace outcome (retries - 0) 0]
    rfl
  · intro domains outcomes retries
    have hfun : (fun d => domainSuccess (outcomes d) retries)
        = (fun d => decide (0 < (scrapeCouponsTrace (outcomes d) retries 0).1.length)) := by
      funext d
      exact domainSuccess_eq_nonempty (outcomes d) retries
    have hfun2 : (fun x => !(domainSuccess (outcomes x) retries))
        = (fun d => !(decide (0 < (scrapeCouponsTrace (outcomes d) retries 0).1.length))) := by
      funext d
      rw [domainSuccess_eq_nonempty]
    have hspec := mainTally_spec outcomes retries domains ⟨0, 0⟩
    have hm : mainTally domains outcomes retries
        = ⟨(domains.filter (fun x => domainSuccess (outcomes x) retries)).length,
           (domains.filter (fun x => !(domainSuccess (outcomes x) retries))).length⟩ := by
      unfold mainTally
      rw [hspec]
      simp
    rw [hm, hfun, hfun2]
    exact ⟨rfl, rfl⟩
  · intro retries
    unfold scrapeCouponsE
    rw [scrapeRetryAuxE_eq_trace, scrapeRetryAuxE_eq_trace]
    rw [scrapeRetryAux_ok (fun _ => Except.ok []) (retries - 0) 0 [] rfl]
    rw [scrapeRetryAux_all_fail (fun _ => Except.error ()) (retries - 0) 0
      (fun k hk1 hk2 => rfl)]

/-! ## Freshness and the read-time cache (api/coupons.js) -/

/-- One row of the per-domain record schema of api/coupons.js: the
whole offer list serialized under the domain, with the write time
updated_at.  Timestamps are integer milliseconds. -/
structure DomainRecord where
  domain : String
  coupons : List CleanCoupon
  updatedAt : Int
deriving DecidableEq

/-- The read-time cache TTL of api/coupons.js line 12: 24 hours in
seconds; the query compares updated_at against now - CACHE_TTL * 1000 ms. -/
def CACHE_TTL : Int := 86400

/-- The freshness lookup of the GET branch (api/coupons.js lines
44-56): select the rows with the given domain and updated_at strictly
greater than now - CACHE_TTL * 1000; when at least one such row exists
the first row's serialized coupons are returned. -/
def lookupFresh (db : List DomainRecord) (now : Int) (d : String) :
    Option (List CleanCoupon) :=
  match db.filter
      (fun r => r.domain == d && decide (now - CACHE_TTL * 1000 < r.updatedAt)) with
  | [] => none
  | r :: _ => some r.coupons

/-- Upsert with onConflict: domain (api/coupons.js lines 70-79):
replace the rows carrying the same domain, else insert at the end. -/
def upsertDomain (db : List DomainRecord) (r : DomainRecord) : List DomainRecord :=
  if db.any (fun q => q.domain == r.domain) then
    db.map (fun q => if q.domain == r.domain then r else q)
  else db ++ [r]

/-- Storing a scrape result (api/coupons.js lines 70-79): the record
for the domain is overwritten wholesale with the fresh offer list and
updated_at = now. -/
def saveDomain (db : List DomainRecord) (now : Int) (d : String)
    (offers : List CleanCoupon) : List DomainRecord :=
  upsertDomain db ⟨d, offers, now⟩

/-- Replacing the domain's rows leaves exactly the fresh record in the
freshness filter's view: the replaced rows all become the new record
(its updated_at is now, trivially fresh) and every other row fails the
domain test. -/
theorem filter_map_replace (now : Int) (d : String) (offers : List CleanCoupon) :
    ∀ (db : List DomainRecord),
      ((db.map (fun q => if q.domain == d then (⟨d, offers, now⟩ : DomainRecord) else q)).filter
          (fun r => r.domain == d && decide (now - CACHE_TTL * 1000 < r.updatedAt)))
        = List.replicate (db.countP (fun q => q.domain == d)) ⟨d, offers, now⟩ := by
  intro db
  induction db with
  | nil => rfl
  | cons q rest ih =>
    have hfreshRec : ((⟨d, offers, now⟩ : DomainRecord).domain == d
        && decide (now - CACHE_TTL * 1000 < (⟨d, offers, now⟩ : DomainRecord).updatedAt))
        = true := by
      dsimp only
      have h1 : now - CACHE_TTL * 1000 < now := by unfold CACHE_TTL; omega
      simp [h1]
    cases hq : q.domain == d
    · rw [List.map_cons, hq, if_neg Bool.false_ne_true, List.filter_cons]
      simp only [hq, Bool.false_and]
      rw [if_neg Bool.false_ne_true, ih]
      simp [List.countP_cons, hq]
    · rw [List.map_cons, hq, if_pos rfl, List.filter_cons]
      simp only [hfreshRec]
      rw [if_pos trivial, ih]
      simp [List.countP_cons, hq, List.replicate_succ]

/-- C7: the read-time cache lookup returns stored data only when
now - lastUpdated is within the 24-hour freshness window, and
immediately after a successful save(domain, offers) the lookup returns
the just-saved offers. -/
theorem lookup_freshness :
    (∀ (db : List DomainRecord) (now : Int) (d : String) (data : List CleanCoupon),
        lookupFresh db now d = some data →
        ∃ r, r ∈ db ∧ r.domain = d ∧ now - r.updatedAt < CACHE_TTL * 1000 ∧ data = r.coupons)
    ∧ (∀ (db : List DomainRecord) (now : Int) (d : String) (offers : List CleanCoupon),
        lookupFresh (saveDomain db now d offers) now d = some offers) := by
  constructor
  · intro db now d data h
    unfold lookupFresh at h
    cases hf : db.filter
        (fun r => r.domain == d && decide (now - CACHE_TTL * 1000 < r.updatedAt)) with
    | nil => rw [hf] at h; cases h
    | cons r rest2 =>
      rw [hf] at h
      have hr : r ∈ db.filter
          (fun r => r.domain == d && decide (now - CACHE_TTL * 1000 < r.updatedAt)) := by
        rw [hf]; exact List.mem_cons_self r rest2
      have hmem := List.mem_of_mem_filter hr
      have hprop := List.of_mem_filter hr
      have hp2 : r.domain = d ∧ now - CACHE_TTL * 1000 < r.updatedAt := by
        simpa only [Bool.and_eq_true, beq_iff_eq, decide_eq_true_eq] using hprop
      have hdata : data = r.coupons := (Option.some_inj.mp h).symm
      exact ⟨r, hmem, hp2.1, by omega, hdata⟩
  · intro db now d offers
    unfold saveDomain upsertDomain
    cases hc : db.any (fun q => q.domain == (⟨d, offers, now⟩ : DomainRecord).domain)
    · rw [if_neg Bool.false_ne_true]
      unfold lookupFresh
      rw [List.filter_append]
      have hdb : db.filter
          (fun r => r.domain == d && decide (now - CACHE_TTL * 1000 < r.updatedAt)) = [] := by
        refine List.filter_eq_nil_iff.mpr ?_
        intro r hr
        intro hcon
        simp only [Bool.and_eq_true] at hcon
        have h1 : (r.domain == d) = true := hcon.1
        have : db.any (fun q => q.domain == d) = true :=
          List.any_eq_true.mpr ⟨r, hr, h1⟩
        rw [this] at hc
        cases hc
      rw [hdb]
      have hrec : List.filter
          (fun r => r.domain == d && decide (now - CACHE_TTL * 1000 < r.updatedAt))
          [(⟨d, offers, now⟩ : DomainRecord)] = [⟨d, offers, now⟩] := by
        rw [List.filter_cons]
        have h1 : now - CACHE_TTL * 1000 < now := by unfold CACHE_TTL; omega
        simp [h1]
      rw [hrec]
      rfl
    · rw [if_pos rfl]
      unfold lookupFresh
      rw [filter_map_replace now d offers db]
      have hpos : 0 < db.countP (fun q => q.domain == d) := by
        rcases List.any_eq_true.mp hc with ⟨q, hq, hqd⟩
        exact List.countP_pos_iff.mpr ⟨q, hq, hqd⟩
      obtain ⟨k, hk⟩ : ∃ k, db.countP (fun q => q.domain == d) = k + 1 :=
        ⟨db.countP (fun q => q.domain == d) - 1, by omega⟩
      rw [hk, List.replicate_succ]

/-- Witness for C7: saving over a stale record and looking up at the
same instant returns the just-saved offers. -/
theorem lookup_freshness_witness :
    lookupFresh
        (saveDomain [⟨"ex.com", [], 0⟩] 1000000000 "ex.com"
          [⟨1, "W10", "10 off", "t", true, "CouponFollow"⟩])
        1000000000 "ex.com"
      = some [⟨1, "W10", "10 off", "t", true, "CouponFollow"⟩] :=
  lookup_freshness.2 [⟨"ex.com", [], 0⟩] 1000000000 "ex.com"
    [⟨1, "W10", "10 off", "t", true, "CouponFollow"⟩]

/-! ## The synchronous GET paths (api/coupons.js and api/coupons/index.js) -/

/-- The body of an API response, as far as the claims distinguish it. -/
inductive ApiBody where
  | couponsBody (cs : List CleanCoupon)
  | rowsBody (rows : List Row)
  | errorBody (msg : String)
deriving DecidableEq

/-- Outcome of an awaited supabase query: the client resolves with
data, resolves with an error field, or the awaited promise rejects. -/
inductive DbOutcome (α : Type) where
  | ok (rows : α)
  | errField (msg : String)
  | thrown (msg : String)

/-- The GET branch of api/coupons.js (lines 35-91): a missing domain is
a 400; a fresh cached row is answered 200 with its coupons; a lookup
error field or an empty result falls through to scraping; a scrape
success is answered 200 (upsert errors are only logged); any thrown
error — a lookup rejection, a scrape failure, or the 10 s overall
timeout — is caught and answered 200 with an empty list. -/
def getCouponsJs (domainQ : Option String)
    (lookupRes : DbOutcome (List DomainRecord))
    (scrapeRes : Except String (List CleanCoupon)) : Nat × ApiBody :=
  match domainQ with
  | none => (400, ApiBody.errorBody "Domain parameter is required")
  | some _ =>
    match lookupRes with
    | DbOutcome.ok rows =>
      match rows with
      | r :: _ => (200, ApiBody.couponsBody r.coupons)
      | [] =>
        match scrapeRes with
        | Except.ok cs => (200, ApiBody.couponsBody cs)
        | Except.error _ => (200, ApiBody.couponsBody [])
    | DbOutcome.errField _ =>
      match scrapeRes with
      | Except.ok cs => (200, ApiBody.couponsBody cs)
      | Except.error _ => (200, ApiBody.couponsBody [])
    | DbOutcome.thrown _ => (200, ApiBody.couponsBody [])

/-- The GET branch of api/coupons/index.js (lines 62-77): the rows in
the 7-day created_at window are answered 200; an error field from the
query is answered 500 with the error message; there is no try/catch,
so a thrown rejection escapes the handler. -/
def getIndexJs (queryRes : DbOutcome (List Row)) : Except String (Nat × ApiBody) :=
  match queryRes with
  | DbOutcome.ok rows => Except.ok (200, ApiBody.rowsBody rows)
  | DbOutcome.errField msg => Except.ok (500, ApiBody.errorBody msg)
  | DbOutcome.thrown msg => Except.error msg

/-- C8 counterexample: on the api/coupons/index.js GET path a failing
lookup query is answered status 500 with the internal error message —
an error status and message derived from the internal failure, so the
claim that every synchronous GET path never exposes internal errors is
false as stated. -/
theorem get_error_exposed_counterexample :
    getIndexJs (DbOutcome.errField "connection refused")
        = Except.ok (500, ApiBody.errorBody "connection refused")
    ∧ (500 : Nat) ≠ 200 :=
  ⟨rfl, by decide⟩

/-- C8 amended: the api/coupons.js GET path never exposes an internal
error — with a domain present, whatever the lookup and scrape outcomes,
the response is a 200 carrying a coupons list (cached, scraped, or
empty) — while the api/coupons/index.js GET path answers a failed
lookup query with a 500 carrying the internal error message. -/
theorem get_no_error_exposure_amended (d : String)
    (lookupRes : DbOutcome (List DomainRecord))
    (scrapeRes : Except String (List CleanCoupon)) :
    ((getCouponsJs (some d) lookupRes scrapeRes).1 = 200
      ∧ ∃ cs, (getCouponsJs (some d) lookupRes scrapeRes).2 = ApiBody.couponsBody cs)
    ∧ ∀ msg, getIndexJs (DbOutcome.errField msg) = Except.ok (500, ApiBody.errorBody msg) := by
  refine ⟨?_, fun msg => rfl⟩
  cases lookupRes with
  | ok rows =>
    cases rows with
    | nil =>
      cases scrapeRes with
      | ok cs => exact ⟨rfl, cs, rfl⟩
      | error e => exact ⟨rfl, [], rfl⟩
    | cons r rest => exact ⟨rfl, r.coupons, rfl⟩
  | errField m =>
    cases scrapeRes with
    | ok cs => exact ⟨rfl, cs, rfl⟩
    | error e => exact ⟨rfl, [], rfl⟩
  | thrown m => exact ⟨rfl, [], rfl⟩

/-! ## C9: the MODAL_TIMEOUT configuration (scrape.js lines 49-51) -/

/-- A JS number as far as parseInt results matter here: NaN or an
integer. -/
inductive JsNum where
  | nan
  | num (n : Int)
deriving DecidableEq

/-- The leading decimal digits of a character list. -/
def leadDigits (cs : List Char) : List Char := cs.takeWhile (fun c => c.isDigit)

/-- The value of a digit string. -/
def digitsToNat (cs : List Char) : Nat :=
  cs.foldl (fun acc c => acc * 10 + (c.toNat - 48)) 0

/-- JS parseInt on a possibly-undefined string: undefined parses to
NaN; otherwise surrounding whitespace is ignored, an optional sign and
the leading decimal digits are read, and no digits means NaN. -/
def parseIntJs (v : Option String) : JsNum :=
  match v with
  | none => JsNum.nan
  | some s =>
    match s.trim.data with
    | '-' :: rest =>
      if (leadDigits rest).length = 0 then JsNum.nan
      else JsNum.num (-(digitsToNat (leadDigits rest) : Int))
    | '+' :: rest =>
      if (leadDigits rest).length = 0 then JsNum.nan
      else JsNum.num (digitsToNat (leadDigits rest))
    | cs =>
      if (leadDigits cs).length = 0 then JsNum.nan
      else JsNum.num (digitsToNat (leadDigits cs))

/-- The Node process object has no MODAL_TIMEOUT property, so the
access process.MODAL_TIMEOUT — as opposed to process.env.MODAL_TIMEOUT —
evaluates to undefined, whatever the environment holds. -/
def processDirectProp (_name : String) : Option String := none

/-- CONFIG.modalTimeout (scrape.js lines 49-51): the guard reads
process.env.MODAL_TIMEOUT, but the value parses process.MODAL_TIMEOUT,
a property the process object does not have; with the variable unset
(or empty, hence falsy) the default 10000 is used. -/
def modalTimeoutConfig (env : String → Option String) : JsNum :=
  if jsTruthy (env "MODAL_TIMEOUT") then parseIntJs (processDirectProp "MODAL_TIMEOUT")
  else JsNum.num 10000

/-- C9 (code bug): with MODAL_TIMEOUT set to the decimal string 12000
the computed modal timeout is NaN — parseInt is applied to the
undefined process.MODAL_TIMEOUT — and not 12000 as the spec states;
with the variable unset the stated default 10000 is used. -/
theorem modal_timeout_env_broken :
    modalTimeoutConfig (fun k => if k = "MODAL_TIMEOUT" then some "12000" else none)
        = JsNum.nan
    ∧ modalTimeoutConfig (fun _ => none) = JsNum.num 10000
    ∧ JsNum.nan ≠ JsNum.num 12000 := by
  refine ⟨by decide, by decide, by decide⟩

end NectarDb
